import Mathlib

/-
Shallow embedding of kaolin/ops/conversions/trianglemesh.py, function
trianglemeshes_to_voxelgrids.  Mesh coordinates are modelled as exact
rationals, tensors as lists.  The helpers imported by that file,
_unbatched_subdivide_vertices (kaolin/ops/mesh/trianglemesh.py) and
_base_points_to_voxelgrids (kaolin/ops/conversions/pointcloud.py), are not
part of the available sources; they are modelled from the specification,
as marked in their doc comments.
-/

/-- A 3d point with exact rational coordinates. -/
abbrev Vec3 := ℚ × ℚ × ℚ

/-- Componentwise subtraction, the tensor op `vertices - origin`. -/
def vsub (a b : Vec3) : Vec3 := (a.1 - b.1, a.2.1 - b.2.1, a.2.2 - b.2.2)

/-- Division of a point by a scalar, broadcast over the three axes,
the tensor op `points / scale.view(-1, 1, 1)`. -/
def vdiv (a : Vec3) (s : ℚ) : Vec3 := (a.1 / s, a.2.1 / s, a.2.2 / s)

/-- Componentwise midpoint of two points. -/
def midpoint3 (a b : Vec3) : Vec3 :=
  ((a.1 + b.1) / 2, (a.2.1 + b.2.1) / 2, (a.2.2 + b.2.2) / 2)

/-- Squared euclidean norm. -/
def sqnorm (a : Vec3) : ℚ := a.1 ^ 2 + a.2.1 ^ 2 + a.2.2 ^ 2

/-- Squared length of the edge from `a` to `b` (squared lengths keep all
arithmetic rational; comparing squared lengths is equivalent to comparing
lengths). -/
def edgeSq (a b : Vec3) : ℚ := sqnorm (vsub a b)

/-- A triangle: the three vertices gathered for one face. -/
structure Tri where
  a : Vec3
  b : Vec3
  c : Vec3
deriving DecidableEq

/-- Squared length of the longest edge of a triangle. -/
def maxEdgeSq (t : Tri) : ℚ :=
  max (max (edgeSq t.a t.b) (edgeSq t.b t.c)) (edgeSq t.a t.c)

/-- Fuelled ceiling logarithm base 4: `clog4Aux fuel n` counts divisions by 4
until the value drops to 1, so that `n ≤ 4 ^ clog4Aux fuel n` whenever
`n ≤ fuel`.  Structural recursion on the fuel keeps it kernel-reducible. -/
def clog4Aux : ℕ → ℕ → ℕ
  | 0, _ => 0
  | fuel + 1, n => if n ≤ 1 then 0 else clog4Aux fuel ((n + 3) / 4) + 1

/-- Ceiling logarithm base 4: `n ≤ 4 ^ clog4 n`. -/
def clog4 (n : ℕ) : ℕ := clog4Aux n n

/-- Modelled from the spec: the subdivision depth for one face, used by the
missing helper `_unbatched_subdivide_vertices`.  The spec derives the number
of midpoint-subdivision rounds analytically from the longest edge length
versus the voxel width `1 / resolution`: every round halves every edge, so
the depth is the ceiling log base 4 of (longest edge / voxel width) squared,
i.e. the least number of rounds `d` with
`maxEdgeSq ≤ 4 ^ d * (1 / resolution) ^ 2` is bounded by this value. -/
def subdivDepth (resolution : ℤ) (t : Tri) : ℕ :=
  clog4 ⌈maxEdgeSq t * (resolution : ℚ) ^ 2⌉₊

/-- Modelled from the spec: one round of standard triangular midpoint
subdivision, splitting a face into 4 sub-triangles by connecting the
midpoints of its three edges. -/
def splitTri (t : Tri) : List Tri :=
  [⟨t.a, midpoint3 t.a t.b, midpoint3 t.a t.c⟩,
   ⟨midpoint3 t.a t.b, t.b, midpoint3 t.b t.c⟩,
   ⟨midpoint3 t.a t.c, midpoint3 t.b t.c, t.c⟩,
   ⟨midpoint3 t.a t.b, midpoint3 t.b t.c, midpoint3 t.a t.c⟩]

/-- Modelled from the spec: `d` rounds of midpoint subdivision applied to a
set of triangles. -/
def subdivideIter : ℕ → List Tri → List Tri
  | 0, ts => ts
  | d + 1, ts => subdivideIter d (ts.flatMap splitTri)

/-- The corner vertices of a triangle, in order. -/
def corners (t : Tri) : List Vec3 := [t.a, t.b, t.c]

/-- Modelled from the spec: all sample points generated for one face — the
corner vertices of every sub-triangle after the precomputed number of
subdivision rounds (these are exactly the original vertices plus every
midpoint introduced in any round). -/
def subdivideFace (resolution : ℤ) (t : Tri) : List Vec3 :=
  (subdivideIter (subdivDepth resolution t) [t]).flatMap corners

/-- Gathering the three vertices of one face, the `torch.index_select`
pattern; an index outside `[0, V)` is a torch error. -/
def gatherFace (vertices : List Vec3) (f : ℕ × ℕ × ℕ) : Except String Tri :=
  match vertices.get? f.1, vertices.get? f.2.1, vertices.get? f.2.2 with
  | some a, some b, some c => .ok ⟨a, b, c⟩
  | _, _, _ => .error "face index out of range"

/-- Gathering all faces, propagating the first index error. -/
def gatherFaces (vertices : List Vec3) : List (ℕ × ℕ × ℕ) → Except String (List Tri)
  | [] => .ok []
  | f :: fs =>
    match gatherFace vertices f with
    | .error e => .error e
    | .ok t =>
      match gatherFaces vertices fs with
      | .error e => .error e
      | .ok ts => .ok (t :: ts)

/-- Modelled from the spec: the helper `_unbatched_subdivide_vertices`
(imported from kaolin/ops/mesh/trianglemesh.py, not among the sources).
For one unbatched mesh it returns the union over faces of all sample points
produced by midpoint subdivision down to edges no longer than one voxel
width. -/
def _unbatched_subdivide_vertices (vertices : List Vec3) (faces : List (ℕ × ℕ × ℕ))
    (resolution : ℤ) : Except String (List Vec3) :=
  match gatherFaces vertices faces with
  | .ok ts => .ok (ts.flatMap (subdivideFace resolution))
  | .error e => .error e

/-- A dense cubic occupancy grid, indexed `grid[x][y][z]`, entries 0 or 1
carried at the dtype of the input vertices (rational here). -/
abbrev Grid3 := List (List (List ℚ))

/-- Modelled from the spec: one coordinate of the rasterizer index map,
`idx = floor(p * resolution)`, clamped into `[0, resolution - 1]`
(the spec mandates clamping `p = 1.0` down to `resolution - 1` and
recommends clamping for points outside `[0, 1]` as well). -/
def pointToVoxelIdx (resolution : ℤ) (p : ℚ) : ℤ :=
  max 0 (min ⌊p * (resolution : ℚ)⌋ (resolution - 1))

/-- Modelled from the spec: the voxel index triple of one point. -/
def voxelIndexOf (resolution : ℤ) (p : Vec3) : ℤ × ℤ × ℤ :=
  (pointToVoxelIdx resolution p.1, pointToVoxelIdx resolution p.2.1,
   pointToVoxelIdx resolution p.2.2)

/-- Modelled from the spec: the set of distinct occupied voxel indices of a
point cloud (sparse representation). -/
def rasterizeIndices (resolution : ℤ) (points : List Vec3) : List (ℤ × ℤ × ℤ) :=
  (points.map (voxelIndexOf resolution)).dedup

/-- The dense grid determined by a set of occupied indices: 1 on the listed
cells, 0 elsewhere. -/
def denseFromIndices (resolution : ℤ) (idxs : List (ℤ × ℤ × ℤ)) : Grid3 :=
  (List.range resolution.toNat).map (fun (x : ℕ) =>
    (List.range resolution.toNat).map (fun (y : ℕ) =>
      (List.range resolution.toNat).map (fun (z : ℕ) =>
        if (((x : ℕ) : ℤ), ((y : ℕ) : ℤ), ((z : ℕ) : ℤ)) ∈ idxs then (1 : ℚ) else 0)))

/-- Result of the rasterizer: a dense grid or a sparse index set. -/
inductive RasterOut where
  | dense (g : Grid3)
  | sparse (idxs : List (ℤ × ℤ × ℤ))
deriving DecidableEq

/-- Modelled from the spec: the helper `_base_points_to_voxelgrids`
(imported from kaolin/ops/conversions/pointcloud.py, not among the
sources).  Maps each point to its voxel index; dense mode returns the full
binary array, sparse mode the set of distinct occupied indices. -/
def _base_points_to_voxelgrids (points : List Vec3) (resolution : ℤ)
    (return_sparse : Bool) : RasterOut :=
  if return_sparse then .sparse (rasterizeIndices resolution points)
  else .dense (denseFromIndices resolution (rasterizeIndices resolution points))

/-- The torch slice assignment `voxelgrids[i] = voxelgrid` of the source
loop: a dense right-hand side is copied, a sparse right-hand side is
rejected by torch (sparse tensors do not support strided assignment). -/
def assignSlice : RasterOut → Except String Grid3
  | .dense g => .ok g
  | .sparse _ => .error "sparse tensors do not have strides"

/-- The body of the source loop for one batch item: subdivide the item's
normalized vertices, rasterize, and store the slice. -/
def procItem (faces : List (ℕ × ℕ × ℕ)) (resolution : ℤ) (return_sparse : Bool)
    (points : List Vec3) : Except String Grid3 :=
  match _unbatched_subdivide_vertices points faces resolution with
  | .ok pts => assignSlice (_base_points_to_voxelgrids pts resolution return_sparse)
  | .error e => .error e

/-- The source loop `for i in range(batch_size)`, processing items in
order and propagating the first error. -/
def convertLoop (faces : List (ℕ × ℕ × ℕ)) (resolution : ℤ) (return_sparse : Bool) :
    List (List Vec3) → Except String (List Grid3)
  | [] => .ok []
  | pts :: rest =>
    match procItem faces resolution return_sparse pts with
    | .error e => .error e
    | .ok g =>
      match convertLoop faces resolution return_sparse rest with
      | .error e => .error e
      | .ok gs => .ok (g :: gs)

/-- Minimum of a list of rationals (torch reduction over one axis; torch
raises on an empty reduction, which the documented precondition of
non-empty vertex sets rules out, so the empty case is given a default). -/
def listMin : List ℚ → ℚ
  | [] => 0
  | x :: xs => xs.foldl min x

/-- Maximum of a list of rationals (see `listMin`). -/
def listMax : List ℚ → ℚ
  | [] => 0
  | x :: xs => xs.foldl max x

/-- Per-axis minimum of one batch item, `torch.min(vertices, dim=1)[0]`. -/
def axisMin (vs : List Vec3) : Vec3 :=
  (listMin (vs.map (fun v => v.1)), listMin (vs.map (fun v => v.2.1)),
   listMin (vs.map (fun v => v.2.2)))

/-- Per-axis maximum of one batch item, `torch.max(vertices, dim=1)[0]`. -/
def axisMax (vs : List Vec3) : Vec3 :=
  (listMax (vs.map (fun v => v.1)), listMax (vs.map (fun v => v.2.1)),
   listMax (vs.map (fun v => v.2.2)))

/-- Maximum over the three axes of a point, `torch.max(·, dim=1)[0]` on a
`(B, 3)` tensor, for one row. -/
def max3 (v : Vec3) : ℚ := max (max v.1 v.2.1) v.2.2

/-- Lines 72-74 of the source: the supplied origin, or per-item per-axis
minima when omitted. -/
def resolveOrigin (vsb : List (List Vec3)) : Option (List Vec3) → List Vec3
  | some o => o
  | none => vsb.map axisMin

/-- Lines 76-78 of the source, default scale per item: the maximum over
axes of (per-axis maximum minus the resolved origin of that item). -/
def scaleDefaults : List (List Vec3) → List Vec3 → List ℚ
  | vs :: vsb, o :: os => max3 (vsub (axisMax vs) o) :: scaleDefaults vsb os
  | _, _ => []

/-- The supplied scale, or the default computed against the resolved
origin when omitted. -/
def resolveScale (vsb : List (List Vec3)) (origin : List Vec3) :
    Option (List ℚ) → List ℚ
  | some s => s
  | none => scaleDefaults vsb origin

/-- Line 83 of the source:
`batched_points = (vertices - origin.unsqueeze(1)) / scale.view(-1, 1, 1)`,
item by item, the single scalar scale broadcast over the three axes. -/
def normBatch : List (List Vec3) → List Vec3 → List ℚ → List (List Vec3)
  | vs :: vsb, o :: os, s :: ss => vs.map (fun v => vdiv (vsub v o) s) :: normBatch vsb os ss
  | _, _, _ => []

/-- The batched vertex tensor together with its dtype and device. -/
structure VertTensor where
  data : List (List Vec3)
  dtype : String
  device : String
deriving DecidableEq

/-- The batched output voxel grid tensor, allocated with the dtype and
device of the input vertices (lines 65-66 and 81 of the source). -/
structure GridTensor where
  data : List Grid3
  dtype : String
  device : String
deriving DecidableEq

/-- The entry point `trianglemeshes_to_voxelgrids` of
kaolin/ops/conversions/trianglemesh.py.  The `isinstance(resolution, int)`
check of lines 68-70 is subsumed by the static type of `resolution`; a
negative resolution is rejected where the source allocates
`torch.zeros((B, resolution, resolution, resolution))` (torch refuses
negative dimensions); resolution zero allocates an empty grid. -/
def trianglemeshes_to_voxelgrids (vertices : VertTensor) (faces : List (ℕ × ℕ × ℕ))
    (resolution : ℤ) (origin : Option (List Vec3)) (scale : Option (List ℚ))
    (return_sparse : Bool) : Except String GridTensor :=
  let org := resolveOrigin vertices.data origin
  let scl := resolveScale vertices.data org scale
  if resolution < 0 then .error "negative dimension" else
  match convertLoop faces resolution return_sparse (normBatch vertices.data org scl) with
  | .ok gs => .ok ⟨gs, vertices.dtype, vertices.device⟩
  | .error e => .error e

set_option maxRecDepth 200000

/-- The fuelled base-4 ceiling logarithm bounds its argument. -/
theorem clog4Aux_spec : ∀ fuel n : ℕ, n ≤ fuel → n ≤ 4 ^ clog4Aux fuel n := by
  intro fuel
  induction fuel with
  | zero =>
    intro n h
    simp only [clog4Aux, pow_zero]
    omega
  | succ fuel ih =>
    intro n h
    by_cases h1 : n ≤ 1
    · simp only [clog4Aux, if_pos h1, pow_zero]
      omega
    · have h2 : (n + 3) / 4 ≤ fuel := by omega
      have h3 := ih ((n + 3) / 4) h2
      simp only [clog4Aux, if_neg h1, pow_succ]
      omega

/-- The base-4 ceiling logarithm bounds its argument. -/
theorem clog4_spec (n : ℕ) : n ≤ 4 ^ clog4 n := clog4Aux_spec n n le_rfl

/-- The subdivision depth is deep enough: after `subdivDepth` halvings the
longest squared edge fits under the squared voxel width. -/
theorem maxEdgeSq_le_pow (resolution : ℤ) (hres : 0 < resolution) (t : Tri) :
    maxEdgeSq t ≤ 4 ^ subdivDepth resolution t * (1 / (resolution : ℚ)) ^ 2 := by
  have hr : (0 : ℚ) < (resolution : ℚ) := by exact_mod_cast hres
  have hr2 : (0 : ℚ) < (resolution : ℚ) ^ 2 := by positivity
  have hceil : maxEdgeSq t * (resolution : ℚ) ^ 2 ≤
      (⌈maxEdgeSq t * (resolution : ℚ) ^ 2⌉₊ : ℚ) := Nat.le_ceil _
  have hlog := clog4_spec ⌈maxEdgeSq t * (resolution : ℚ) ^ 2⌉₊
  have hlog' : ((⌈maxEdgeSq t * (resolution : ℚ) ^ 2⌉₊ : ℕ) : ℚ) ≤
      (4 : ℚ) ^ subdivDepth resolution t := by
    have := (Nat.cast_le (α := ℚ)).mpr hlog
    push_cast at this
    simpa [subdivDepth] using this
  have hmain : maxEdgeSq t * (resolution : ℚ) ^ 2 ≤ (4 : ℚ) ^ subdivDepth resolution t :=
    le_trans hceil hlog'
  have h4 : maxEdgeSq t ≤ (4 : ℚ) ^ subdivDepth resolution t / (resolution : ℚ) ^ 2 :=
    (le_div_iff hr2).mpr hmain
  calc maxEdgeSq t ≤ (4 : ℚ) ^ subdivDepth resolution t / (resolution : ℚ) ^ 2 := h4
    _ = 4 ^ subdivDepth resolution t * (1 / (resolution : ℚ)) ^ 2 := by
        field_simp

/-- Each edge of a triangle is bounded by its longest squared edge. -/
theorem edge_le_maxEdgeSq (t : Tri) :
    edgeSq t.a t.b ≤ maxEdgeSq t ∧ edgeSq t.b t.c ≤ maxEdgeSq t ∧
      edgeSq t.a t.c ≤ maxEdgeSq t := by
  refine ⟨?_, ?_, ?_⟩
  · exact le_trans (le_max_left _ _) (le_max_left _ _)
  · exact le_trans (le_max_right _ _) (le_max_left _ _)
  · exact le_max_right _ _

/-- Any sub-triangle produced by one midpoint split has its longest squared
edge at most a quarter of the parent's. -/
theorem splitTri_maxEdgeSq {t' t : Tri} (h : t' ∈ splitTri t) :
    maxEdgeSq t' ≤ maxEdgeSq t / 4 := by
  obtain ⟨hab, hbc, hac⟩ := edge_le_maxEdgeSq t
  have q4 : (0 : ℚ) < 4 := by norm_num
  simp only [splitTri, List.mem_cons, List.not_mem_nil, or_false] at h
  rcases h with h | h | h | h <;> subst h <;>
    refine max_le (max_le ?_ ?_) ?_
  · rw [show edgeSq t.a (midpoint3 t.a t.b) = edgeSq t.a t.b / 4 by
      simp only [edgeSq, sqnorm, vsub, midpoint3]; ring]
    exact (div_le_div_right q4).mpr hab
  · rw [show edgeSq (midpoint3 t.a t.b) (midpoint3 t.a t.c) = edgeSq t.b t.c / 4 by
      simp only [edgeSq, sqnorm, vsub, midpoint3]; ring]
    exact (div_le_div_right q4).mpr hbc
  · rw [show edgeSq t.a (midpoint3 t.a t.c) = edgeSq t.a t.c / 4 by
      simp only [edgeSq, sqnorm, vsub, midpoint3]; ring]
    exact (div_le_div_right q4).mpr hac
  · rw [show edgeSq (midpoint3 t.a t.b) t.b = edgeSq t.a t.b / 4 by
      simp only [edgeSq, sqnorm, vsub, midpoint3]; ring]
    exact (div_le_div_right q4).mpr hab
  · rw [show edgeSq t.b (midpoint3 t.b t.c) = edgeSq t.b t.c / 4 by
      simp only [edgeSq, sqnorm, vsub, midpoint3]; ring]
    exact (div_le_div_right q4).mpr hbc
  · rw [show edgeSq (midpoint3 t.a t.b) (midpoint3 t.b t.c) = edgeSq t.a t.c / 4 by
      simp only [edgeSq, sqnorm, vsub, midpoint3]; ring]
    exact (div_le_div_right q4).mpr hac
  · rw [show edgeSq (midpoint3 t.a t.c) (midpoint3 t.b t.c) = edgeSq t.a t.b / 4 by
      simp only [edgeSq, sqnorm, vsub, midpoint3]; ring]
    exact (div_le_div_right q4).mpr hab
  · rw [show edgeSq (midpoint3 t.b t.c) t.c = edgeSq t.b t.c / 4 by
      simp only [edgeSq, sqnorm, vsub, midpoint3]; ring]
    exact (div_le_div_right q4).mpr hbc
  · rw [show edgeSq (midpoint3 t.a t.c) t.c = edgeSq t.a t.c / 4 by
      simp only [edgeSq, sqnorm, vsub, midpoint3]; ring]
    exact (div_le_div_right q4).mpr hac
  · rw [show edgeSq (midpoint3 t.a t.b) (midpoint3 t.b t.c) = edgeSq t.a t.c / 4 by
      simp only [edgeSq, sqnorm, vsub, midpoint3]; ring]
    exact (div_le_div_right q4).mpr hac
  · rw [show edgeSq (midpoint3 t.b t.c) (midpoint3 t.a t.c) = edgeSq t.a t.b / 4 by
      simp only [edgeSq, sqnorm, vsub, midpoint3]; ring]
    exact (div_le_div_right q4).mpr hab
  · rw [show edgeSq (midpoint3 t.a t.b) (midpoint3 t.a t.c) = edgeSq t.b t.c / 4 by
      simp only [edgeSq, sqnorm, vsub, midpoint3]; ring]
    exact (div_le_div_right q4).mpr hbc

/-- After `d` rounds of midpoint subdivision every triangle's longest
squared edge has shrunk by a factor `4 ^ d`. -/
theorem subdivideIter_maxEdgeSq :
    ∀ (d : ℕ) (ts : List Tri) (q : ℚ), (∀ t ∈ ts, maxEdgeSq t ≤ q) →
      ∀ t' ∈ subdivideIter d ts, maxEdgeSq t' ≤ q / 4 ^ d := by
  intro d
  induction d with
  | zero =>
    intro ts q hts t' ht'
    simpa [subdivideIter] using hts t' ht'
  | succ d ih =>
    intro ts q hts t' ht'
    simp only [subdivideIter] at ht'
    have hstep : ∀ t ∈ ts.flatMap splitTri, maxEdgeSq t ≤ q / 4 := by
      intro u hu
      rcases List.mem_flatMap.mp hu with ⟨t, ht, hmem⟩
      exact le_trans (splitTri_maxEdgeSq hmem)
        ((div_le_div_right (by norm_num)).mpr (hts t ht))
    have := ih (ts.flatMap splitTri) (q / 4) hstep t' ht'
    calc maxEdgeSq t' ≤ q / 4 / 4 ^ d := this
      _ = q / 4 ^ (d + 1) := by
          rw [div_div, pow_succ]
          ring_nf

/-- A corner of a triangle in the working set survives every subdivision
round as a corner of some sub-triangle. -/
theorem subdivideIter_corner :
    ∀ (d : ℕ) (ts : List Tri) (t : Tri), t ∈ ts → ∀ p : Vec3,
      (p = t.a ∨ p = t.b ∨ p = t.c) →
      ∃ t' ∈ subdivideIter d ts, p = t'.a ∨ p = t'.b ∨ p = t'.c := by
  intro d
  induction d with
  | zero =>
    intro ts t ht p hp
    exact ⟨t, by simpa [subdivideIter] using ht, hp⟩
  | succ d ih =>
    intro ts t ht p hp
    simp only [subdivideIter]
    rcases hp with hp | hp | hp
    · refine ih (ts.flatMap splitTri) ⟨t.a, midpoint3 t.a t.b, midpoint3 t.a t.c⟩ ?_ p ?_
      · exact List.mem_flatMap.mpr ⟨t, ht, by simp [splitTri]⟩
      · exact Or.inl hp
    · refine ih (ts.flatMap splitTri) ⟨midpoint3 t.a t.b, t.b, midpoint3 t.b t.c⟩ ?_ p ?_
      · exact List.mem_flatMap.mpr ⟨t, ht, by simp [splitTri]⟩
      · exact Or.inr (Or.inl hp)
    · refine ih (ts.flatMap splitTri) ⟨midpoint3 t.a t.c, midpoint3 t.b t.c, t.c⟩ ?_ p ?_
      · exact List.mem_flatMap.mpr ⟨t, ht, by simp [splitTri]⟩
      · exact Or.inr (Or.inr hp)

/-- A corner of the original face appears among the sample points. -/
theorem corner_mem_subdivideFace (resolution : ℤ) (t : Tri) (p : Vec3)
    (hp : p = t.a ∨ p = t.b ∨ p = t.c) : p ∈ subdivideFace resolution t := by
  obtain ⟨t', ht', hc⟩ :=
    subdivideIter_corner (subdivDepth resolution t) [t] t (by simp) p hp
  refine List.mem_flatMap.mpr ⟨t', ht', ?_⟩
  rcases hc with hc | hc | hc <;> simp [corners, hc]

/-- C8: for every face, subdivision runs a number of midpoint-split rounds
computed in advance from the longest edge (`subdivDepth`), it terminates by
construction (including zero-area degenerate triangles), the original
vertices are always among the produced sample points, and after the
precomputed rounds every edge of every resulting sub-triangle has length at
most one voxel width `1 / resolution` (stated on squared lengths, which is
equivalent and keeps the arithmetic rational). -/
theorem subdivision_depth_bounds_edges (resolution : ℤ) (hres : 0 < resolution) (t : Tri) :
    (t.a ∈ subdivideFace resolution t ∧ t.b ∈ subdivideFace resolution t ∧
      t.c ∈ subdivideFace resolution t) ∧
    ∀ t' ∈ subdivideIter (subdivDepth resolution t) [t],
      edgeSq t'.a t'.b ≤ (1 / (resolution : ℚ)) ^ 2 ∧
      edgeSq t'.b t'.c ≤ (1 / (resolution : ℚ)) ^ 2 ∧
      edgeSq t'.a t'.c ≤ (1 / (resolution : ℚ)) ^ 2 := by
  constructor
  · exact ⟨corner_mem_subdivideFace resolution t t.a (Or.inl rfl),
      corner_mem_subdivideFace resolution t t.b (Or.inr (Or.inl rfl)),
      corner_mem_subdivideFace resolution t t.c (Or.inr (Or.inr rfl))⟩
  · intro t' ht'
    have hstart : ∀ u ∈ [t], maxEdgeSq u ≤ maxEdgeSq t := by
      intro u hu
      simp only [List.mem_singleton] at hu
      simp [hu]
    have hshrunk := subdivideIter_maxEdgeSq (subdivDepth resolution t) [t]
      (maxEdgeSq t) hstart t' ht'
    have hpow : (0 : ℚ) < 4 ^ subdivDepth resolution t := by positivity
    have hbound : maxEdgeSq t / 4 ^ subdivDepth resolution t ≤
        (1 / (resolution : ℚ)) ^ 2 := by
      have := maxEdgeSq_le_pow resolution hres t
      rw [div_le_iff hpow]
      calc maxEdgeSq t ≤ 4 ^ subdivDepth resolution t * (1 / (resolution : ℚ)) ^ 2 :=
            this
        _ = (1 / (resolution : ℚ)) ^ 2 * 4 ^ subdivDepth resolution t := by ring
    have hfinal : maxEdgeSq t' ≤ (1 / (resolution : ℚ)) ^ 2 :=
      le_trans hshrunk hbound
    obtain ⟨h1, h2, h3⟩ := edge_le_maxEdgeSq t'
    exact ⟨le_trans h1 hfinal, le_trans h2 hfinal, le_trans h3 hfinal⟩

/-- Witness for C8 at resolution 1 on a zero-area degenerate triangle. -/
theorem subdivision_depth_bounds_edges_witness :
    ((((0 : ℚ), (0 : ℚ), (0 : ℚ)) ∈
        subdivideFace 1 ⟨((0 : ℚ), 0, 0), ((0 : ℚ), 0, 0), ((0 : ℚ), 0, 0)⟩) ∧
      (((0 : ℚ), (0 : ℚ), (0 : ℚ)) ∈
        subdivideFace 1 ⟨((0 : ℚ), 0, 0), ((0 : ℚ), 0, 0), ((0 : ℚ), 0, 0)⟩) ∧
      (((0 : ℚ), (0 : ℚ), (0 : ℚ)) ∈
        subdivideFace 1 ⟨((0 : ℚ), 0, 0), ((0 : ℚ), 0, 0), ((0 : ℚ), 0, 0)⟩)) ∧
    ∀ t' ∈ subdivideIter
        (subdivDepth 1 ⟨((0 : ℚ), 0, 0), ((0 : ℚ), 0, 0), ((0 : ℚ), 0, 0)⟩)
        [⟨((0 : ℚ), 0, 0), ((0 : ℚ), 0, 0), ((0 : ℚ), 0, 0)⟩],
      edgeSq t'.a t'.b ≤ (1 / ((1 : ℤ) : ℚ)) ^ 2 ∧
      edgeSq t'.b t'.c ≤ (1 / ((1 : ℤ) : ℚ)) ^ 2 ∧
      edgeSq t'.a t'.c ≤ (1 / ((1 : ℤ) : ℚ)) ^ 2 :=
  subdivision_depth_bounds_edges 1 (by norm_num)
    ⟨((0 : ℚ), 0, 0), ((0 : ℚ), 0, 0), ((0 : ℚ), 0, 0)⟩

/-- Every clamped voxel index is nonnegative. -/
theorem pointToVoxelIdx_nonneg (resolution : ℤ) (p : ℚ) :
    0 ≤ pointToVoxelIdx resolution p := le_max_left _ _

/-- Every clamped voxel index is below the resolution. -/
theorem pointToVoxelIdx_lt (resolution : ℤ) (h : 1 ≤ resolution) (p : ℚ) :
    pointToVoxelIdx resolution p < resolution := by
  unfold pointToVoxelIdx
  have h1 : (0 : ℤ) < resolution := h
  have h2 : min ⌊p * (resolution : ℚ)⌋ (resolution - 1) < resolution :=
    lt_of_le_of_lt (min_le_right _ _) (by omega)
  exact max_lt h1 h2

/-- A coordinate exactly at the normalized boundary 1.0 is clamped to
`resolution - 1`. -/
theorem pointToVoxelIdx_boundary (resolution : ℤ) (h : 1 ≤ resolution) :
    pointToVoxelIdx resolution 1 = resolution - 1 := by
  unfold pointToVoxelIdx
  rw [one_mul, Int.floor_intCast]
  rw [min_eq_right (by omega), max_eq_right (by omega)]

/-- C7: a normalized point with a coordinate exactly 1.0 is mapped to voxel
index `resolution - 1` rather than the out-of-range index `resolution` (as a
sample, the point (1,1,1) rasterizes to the single index triple
`(resolution-1, resolution-1, resolution-1)`), and every occupied index the
rasterizer produces lies within `[0, resolution)` on each axis. -/
theorem rasterizer_clamps_and_stays_in_range (resolution : ℤ) (h : 1 ≤ resolution) :
    pointToVoxelIdx resolution 1 = resolution - 1 ∧
    rasterizeIndices resolution [((1 : ℚ), 1, 1)] =
      [(resolution - 1, resolution - 1, resolution - 1)] ∧
    ∀ (points : List Vec3) (idx : ℤ × ℤ × ℤ), idx ∈ rasterizeIndices resolution points →
      (0 ≤ idx.1 ∧ idx.1 < resolution) ∧ (0 ≤ idx.2.1 ∧ idx.2.1 < resolution) ∧
      (0 ≤ idx.2.2 ∧ idx.2.2 < resolution) := by
  refine ⟨pointToVoxelIdx_boundary resolution h, ?_, ?_⟩
  · simp [rasterizeIndices, voxelIndexOf, pointToVoxelIdx_boundary resolution h,
      List.dedup]
  · intro points idx hidx
    rcases List.mem_map.mp (List.mem_dedup.mp hidx) with ⟨p, _, hp⟩
    subst hp
    exact ⟨⟨pointToVoxelIdx_nonneg _ _, pointToVoxelIdx_lt _ h _⟩,
      ⟨pointToVoxelIdx_nonneg _ _, pointToVoxelIdx_lt _ h _⟩,
      ⟨pointToVoxelIdx_nonneg _ _, pointToVoxelIdx_lt _ h _⟩⟩

/-- Witness for C7 at resolution 3. -/
theorem rasterizer_clamps_and_stays_in_range_witness :
    pointToVoxelIdx 3 1 = 3 - 1 ∧
    rasterizeIndices 3 [((1 : ℚ), 1, 1)] = [((3 : ℤ) - 1, (3 : ℤ) - 1, (3 : ℤ) - 1)] ∧
    ∀ (points : List Vec3) (idx : ℤ × ℤ × ℤ), idx ∈ rasterizeIndices 3 points →
      (0 ≤ idx.1 ∧ idx.1 < 3) ∧ (0 ≤ idx.2.1 ∧ idx.2.1 < 3) ∧
      (0 ≤ idx.2.2 ∧ idx.2.2 < 3) :=
  rasterizer_clamps_and_stays_in_range 3 (by norm_num)

/-- Indexing the normalized batch: the i-th normalized item is exactly the
i-th vertex set mapped by `(v - origin_i) / scale_i`. -/
theorem normBatch_getElem? :
    ∀ (i : ℕ) (vsb : List (List Vec3)) (os : List Vec3) (ss : List ℚ)
      (vsi : List Vec3) (oi : Vec3) (si : ℚ),
      vsb[i]? = some vsi → os[i]? = some oi → ss[i]? = some si →
      (normBatch vsb os ss)[i]? = some (vsi.map (fun v => vdiv (vsub v oi) si)) := by
  intro i
  induction i with
  | zero =>
    intro vsb os ss vsi oi si hv ho hs
    cases vsb with
    | nil => simp at hv
    | cons v vsb =>
      cases os with
      | nil => simp at ho
      | cons o os =>
        cases ss with
        | nil => simp at hs
        | cons s ss =>
          simp at hv ho hs
          subst hv; subst ho; subst hs
          simp [normBatch]
  | succ i ih =>
    intro vsb os ss vsi oi si hv ho hs
    cases vsb with
    | nil => simp at hv
    | cons v vsb =>
      cases os with
      | nil => simp at ho
      | cons o os =>
        cases ss with
        | nil => simp at hs
        | cons s ss =>
          simp only [List.getElem?_cons_succ] at hv ho hs
          simpa [normBatch] using ih vsb os ss vsi oi si hv ho hs

/-- The normalized batch is as long as the shortest of the three inputs. -/
theorem normBatch_length :
    ∀ (vsb : List (List Vec3)) (os : List Vec3) (ss : List ℚ),
      (normBatch vsb os ss).length = min (min vsb.length os.length) ss.length := by
  intro vsb
  induction vsb with
  | nil => intro os ss; simp [normBatch]
  | cons v vsb ih =>
    intro os ss
    cases os with
    | nil => simp [normBatch]
    | cons o os =>
      cases ss with
      | nil => simp [normBatch]
      | cons s ss =>
        simp only [normBatch, List.length_cons, ih]
        omega

/-- Indexing the default scales: the i-th default scale is the maximum over
axes of (per-axis maximum of item i minus the resolved origin of item i). -/
theorem scaleDefaults_getElem? :
    ∀ (i : ℕ) (vsb : List (List Vec3)) (os : List Vec3) (vsi : List Vec3) (oi : Vec3),
      vsb[i]? = some vsi → os[i]? = some oi →
      (scaleDefaults vsb os)[i]? = some (max3 (vsub (axisMax vsi) oi)) := by
  intro i
  induction i with
  | zero =>
    intro vsb os vsi oi hv ho
    cases vsb with
    | nil => simp at hv
    | cons v vsb =>
      cases os with
      | nil => simp at ho
      | cons o os =>
        simp at hv ho
        subst hv; subst ho
        simp [scaleDefaults]
  | succ i ih =>
    intro vsb os vsi oi hv ho
    cases vsb with
    | nil => simp at hv
    | cons v vsb =>
      cases os with
      | nil => simp at ho
      | cons o os =>
        simp only [List.getElem?_cons_succ] at hv ho
        simpa [scaleDefaults] using ih vsb os vsi oi hv ho

/-- A successful loop run produces one grid per processed item. -/
theorem convertLoop_ok_length (faces : List (ℕ × ℕ × ℕ)) (resolution : ℤ)
    (return_sparse : Bool) :
    ∀ (ps : List (List Vec3)) (gs : List Grid3),
      convertLoop faces resolution return_sparse ps = .ok gs →
      gs.length = ps.length := by
  intro ps
  induction ps with
  | nil =>
    intro gs h
    simp only [convertLoop] at h
    cases h
    rfl
  | cons pts rest ih =>
    intro gs h
    simp only [convertLoop] at h
    cases h1 : procItem faces resolution return_sparse pts with
    | error e => rw [h1] at h; cases h
    | ok g =>
      rw [h1] at h
      cases h2 : convertLoop faces resolution return_sparse rest with
      | error e => rw [h2] at h; cases h
      | ok gs2 =>
        rw [h2] at h
        cases h
        simp [ih gs2 h2]

/-- A successful loop run processed the i-th item into the i-th grid. -/
theorem convertLoop_ok_getElem? (faces : List (ℕ × ℕ × ℕ)) (resolution : ℤ)
    (return_sparse : Bool) :
    ∀ (ps : List (List Vec3)) (gs : List Grid3),
      convertLoop faces resolution return_sparse ps = .ok gs →
      ∀ (i : ℕ) (pts : List Vec3), ps[i]? = some pts →
        ∃ g, gs[i]? = some g ∧ procItem faces resolution return_sparse pts = .ok g := by
  intro ps
  induction ps with
  | nil =>
    intro gs h i pts hp
    simp at hp
  | cons q rest ih =>
    intro gs h i pts hp
    simp only [convertLoop] at h
    cases h1 : procItem faces resolution return_sparse q with
    | error e => rw [h1] at h; cases h
    | ok g =>
      rw [h1] at h
      cases h2 : convertLoop faces resolution return_sparse rest with
      | error e => rw [h2] at h; cases h
      | ok gs2 =>
        rw [h2] at h
        cases h
        cases i with
        | zero =>
          simp at hp
          subst hp
          exact ⟨g, by simp, h1⟩
        | succ i =>
          simp only [List.getElem?_cons_succ] at hp ⊢
          exact ih gs2 h2 i pts hp

/-- Every grid a successful loop run returns came from processing some
item. -/
theorem convertLoop_ok_mem (faces : List (ℕ × ℕ × ℕ)) (resolution : ℤ)
    (return_sparse : Bool) :
    ∀ (ps : List (List Vec3)) (gs : List Grid3),
      convertLoop faces resolution return_sparse ps = .ok gs →
      ∀ g ∈ gs, ∃ pts ∈ ps, procItem faces resolution return_sparse pts = .ok g := by
  intro ps
  induction ps with
  | nil =>
    intro gs h g hg
    simp only [convertLoop] at h
    cases h
    simp at hg
  | cons q rest ih =>
    intro gs h g hg
    simp only [convertLoop] at h
    cases h1 : procItem faces resolution return_sparse q with
    | error e => rw [h1] at h; cases h
    | ok g0 =>
      rw [h1] at h
      cases h2 : convertLoop faces resolution return_sparse rest with
      | error e => rw [h2] at h; cases h
      | ok gs2 =>
        rw [h2] at h
        cases h
        rcases List.mem_cons.mp hg with hg | hg
        · exact ⟨q, List.mem_cons_self _ _, by rw [hg]; exact h1⟩
        · rcases ih gs2 h2 g hg with ⟨pts, hpts, hproc⟩
          exact ⟨pts, List.mem_cons_of_mem _ hpts, hproc⟩

/-- Unfolding a successful call of the entry point: the resolution was not
negative, the loop succeeded on the normalized batch, and the output tensor
carries the input's dtype and device. -/
theorem convert_ok_elim (vts : VertTensor) (faces : List (ℕ × ℕ × ℕ)) (resolution : ℤ)
    (origin : Option (List Vec3)) (scale : Option (List ℚ)) (return_sparse : Bool)
    (t : GridTensor)
    (h : trianglemeshes_to_voxelgrids vts faces resolution origin scale return_sparse
      = .ok t) :
    0 ≤ resolution ∧
    convertLoop faces resolution return_sparse
      (normBatch vts.data (resolveOrigin vts.data origin)
        (resolveScale vts.data (resolveOrigin vts.data origin) scale)) = .ok t.data ∧
    t.dtype = vts.dtype ∧ t.device = vts.device := by
  unfold trianglemeshes_to_voxelgrids at h
  by_cases hres : resolution < 0
  · rw [if_pos hres] at h
    cases h
  · rw [if_neg hres] at h
    cases h2 : convertLoop faces resolution return_sparse
        (normBatch vts.data (resolveOrigin vts.data origin)
          (resolveScale vts.data (resolveOrigin vts.data origin) scale)) with
    | error e => rw [h2] at h; cases h
    | ok gs =>
      rw [h2] at h
      cases h
      exact ⟨by omega, by simp, rfl, rfl⟩

/-- A successfully stored slice is always a dense grid built from an index
set, and only dense mode stores successfully. -/
theorem procItem_ok_dense (faces : List (ℕ × ℕ × ℕ)) (resolution : ℤ)
    (return_sparse : Bool) (pts : List Vec3) (g : Grid3)
    (h : procItem faces resolution return_sparse pts = .ok g) :
    return_sparse = false ∧
    ∃ idxs, g = denseFromIndices resolution idxs := by
  unfold procItem at h
  cases h1 : _unbatched_subdivide_vertices pts faces resolution with
  | error e => rw [h1] at h; cases h
  | ok points =>
    rw [h1] at h
    cases return_sparse with
    | true =>
      simp [_base_points_to_voxelgrids, assignSlice] at h
    | false =>
      simp only [_base_points_to_voxelgrids, if_neg Bool.false_ne_true, assignSlice] at h
      cases h
      exact ⟨rfl, _, rfl⟩

/-- The dense grid built from an index set is a full cube of side
`resolution`. -/
theorem denseFromIndices_dims (resolution : ℤ) (idxs : List (ℤ × ℤ × ℤ)) :
    (denseFromIndices resolution idxs).length = resolution.toNat ∧
    ∀ plane ∈ denseFromIndices resolution idxs, plane.length = resolution.toNat ∧
      ∀ row ∈ plane, row.length = resolution.toNat := by
  constructor
  · unfold denseFromIndices
    rw [List.length_map, List.length_range]
  · intro plane hplane
    unfold denseFromIndices at hplane
    rcases List.mem_map.mp hplane with ⟨x, _, hx⟩
    subst hx
    constructor
    · rw [List.length_map, List.length_range]
    · intro row hrow
      rcases List.mem_map.mp hrow with ⟨y, _, hy⟩
      subst hy
      rw [List.length_map, List.length_range]

/-- Folding `min` over a list never exceeds the initial value. -/
theorem foldl_min_le_init : ∀ (l : List ℚ) (x : ℚ), l.foldl min x ≤ x := by
  intro l
  induction l with
  | nil => intro x; simp
  | cons y l ih =>
    intro x
    simp only [List.foldl_cons]
    exact le_trans (ih (min x y)) (min_le_left _ _)

/-- Folding `min` over a list is below every member. -/
theorem foldl_min_le_mem : ∀ (l : List ℚ) (x a : ℚ), a ∈ l → l.foldl min x ≤ a := by
  intro l
  induction l with
  | nil => intro x a ha; simp at ha
  | cons y l ih =>
    intro x a ha
    rcases List.mem_cons.mp ha with ha | ha
    · subst ha
      exact le_trans (foldl_min_le_init l (min x a)) (min_le_right _ _)
    · exact ih (min x y) a ha

/-- Folding `min` over a list returns the initial value or a member. -/
theorem foldl_min_mem : ∀ (l : List ℚ) (x : ℚ), l.foldl min x = x ∨ l.foldl min x ∈ l := by
  intro l
  induction l with
  | nil => intro x; simp
  | cons y l ih =>
    intro x
    simp only [List.foldl_cons]
    rcases ih (min x y) with h | h
    · rcases le_total x y with hxy | hxy
      · exact Or.inl (h.trans (min_eq_left hxy))
      · exact Or.inr (List.mem_cons.mpr (Or.inl (h.trans (min_eq_right hxy))))
    · exact Or.inr (List.mem_cons_of_mem _ h)

/-- Folding `max` over a list is at least the initial value. -/
theorem foldl_max_ge_init : ∀ (l : List ℚ) (x : ℚ), x ≤ l.foldl max x := by
  intro l
  induction l with
  | nil => intro x; simp
  | cons y l ih =>
    intro x
    simp only [List.foldl_cons]
    exact le_trans (le_max_left _ _) (ih (max x y))

/-- Folding `max` over a list is above every member. -/
theorem foldl_max_ge_mem : ∀ (l : List ℚ) (x a : ℚ), a ∈ l → a ≤ l.foldl max x := by
  intro l
  induction l with
  | nil => intro x a ha; simp at ha
  | cons y l ih =>
    intro x a ha
    rcases List.mem_cons.mp ha with ha | ha
    · subst ha
      exact le_trans (le_max_right _ _) (foldl_max_ge_init l (max x a))
    · exact ih (max x y) a ha

/-- Folding `max` over a list returns the initial value or a member. -/
theorem foldl_max_mem : ∀ (l : List ℚ) (x : ℚ), l.foldl max x = x ∨ l.foldl max x ∈ l := by
  intro l
  induction l with
  | nil => intro x; simp
  | cons y l ih =>
    intro x
    simp only [List.foldl_cons]
    rcases ih (max x y) with h | h
    · rcases le_total x y with hxy | hxy
      · exact Or.inr (List.mem_cons.mpr (Or.inl (h.trans (max_eq_right hxy))))
      · exact Or.inl (h.trans (max_eq_left hxy))
    · exact Or.inr (List.mem_cons_of_mem _ h)

/-- `listMin` of a non-empty list is below every member. -/
theorem listMin_le (l : List ℚ) (a : ℚ) (ha : a ∈ l) : listMin l ≤ a := by
  cases l with
  | nil => simp at ha
  | cons x l =>
    rcases List.mem_cons.mp ha with h | h
    · subst h
      exact foldl_min_le_init l a
    · exact foldl_min_le_mem l x a h

/-- `listMin` of a non-empty list is attained by a member. -/
theorem listMin_mem (l : List ℚ) (h : l ≠ []) : listMin l ∈ l := by
  cases l with
  | nil => exact absurd rfl h
  | cons x l =>
    rcases foldl_min_mem l x with h1 | h1
    · rw [listMin]
      rw [h1]
      exact List.mem_cons_self _ _
    · rw [listMin]
      exact List.mem_cons_of_mem _ h1

/-- `listMax` of a non-empty list is above every member. -/
theorem listMax_ge (l : List ℚ) (a : ℚ) (ha : a ∈ l) : a ≤ listMax l := by
  cases l with
  | nil => simp at ha
  | cons x l =>
    rcases List.mem_cons.mp ha with h | h
    · subst h
      exact foldl_max_ge_init l a
    · exact foldl_max_ge_mem l x a h

/-- `listMax` of a non-empty list is attained by a member. -/
theorem listMax_mem (l : List ℚ) (h : l ≠ []) : listMax l ∈ l := by
  cases l with
  | nil => exact absurd rfl h
  | cons x l =>
    rcases foldl_max_mem l x with h1 | h1
    · rw [listMax]
      rw [h1]
      exact List.mem_cons_self _ _
    · rw [listMax]
      exact List.mem_cons_of_mem _ h1

/-- `m` is the componentwise greatest lower bound of the vertex list,
attained on every axis: the meaning of a per-axis minimum. -/
def isAxisMinOf (vs : List Vec3) (m : Vec3) : Prop :=
  (∀ v ∈ vs, m.1 ≤ v.1 ∧ m.2.1 ≤ v.2.1 ∧ m.2.2 ≤ v.2.2) ∧
  (∃ v ∈ vs, v.1 = m.1) ∧ (∃ v ∈ vs, v.2.1 = m.2.1) ∧ (∃ v ∈ vs, v.2.2 = m.2.2)

/-- `m` is the componentwise least upper bound of the vertex list, attained
on every axis: the meaning of a per-axis maximum. -/
def isAxisMaxOf (vs : List Vec3) (m : Vec3) : Prop :=
  (∀ v ∈ vs, v.1 ≤ m.1 ∧ v.2.1 ≤ m.2.1 ∧ v.2.2 ≤ m.2.2) ∧
  (∃ v ∈ vs, v.1 = m.1) ∧ (∃ v ∈ vs, v.2.1 = m.2.1) ∧ (∃ v ∈ vs, v.2.2 = m.2.2)

/-- `axisMin` really computes the per-axis minimum of a non-empty item. -/
theorem axisMin_spec (vs : List Vec3) (h : vs ≠ []) : isAxisMinOf vs (axisMin vs) := by
  refine ⟨?_, ?_, ?_, ?_⟩
  · intro v hv
    exact ⟨listMin_le _ _ (List.mem_map_of_mem _ hv),
      listMin_le _ _ (List.mem_map_of_mem _ hv),
      listMin_le _ _ (List.mem_map_of_mem _ hv)⟩
  · have := listMin_mem (vs.map (fun v => v.1)) (by simpa using h)
    rcases List.mem_map.mp this with ⟨v, hv, he⟩
    exact ⟨v, hv, he⟩
  · have := listMin_mem (vs.map (fun v => v.2.1)) (by simpa using h)
    rcases List.mem_map.mp this with ⟨v, hv, he⟩
    exact ⟨v, hv, he⟩
  · have := listMin_mem (vs.map (fun v => v.2.2)) (by simpa using h)
    rcases List.mem_map.mp this with ⟨v, hv, he⟩
    exact ⟨v, hv, he⟩

/-- `axisMax` really computes the per-axis maximum of a non-empty item. -/
theorem axisMax_spec (vs : List Vec3) (h : vs ≠ []) : isAxisMaxOf vs (axisMax vs) := by
  refine ⟨?_, ?_, ?_, ?_⟩
  · intro v hv
    exact ⟨listMax_ge _ _ (List.mem_map_of_mem _ hv),
      listMax_ge _ _ (List.mem_map_of_mem _ hv),
      listMax_ge _ _ (List.mem_map_of_mem _ hv)⟩
  · have := listMax_mem (vs.map (fun v => v.1)) (by simpa using h)
    rcases List.mem_map.mp this with ⟨v, hv, he⟩
    exact ⟨v, hv, he⟩
  · have := listMax_mem (vs.map (fun v => v.2.1)) (by simpa using h)
    rcases List.mem_map.mp this with ⟨v, hv, he⟩
    exact ⟨v, hv, he⟩
  · have := listMax_mem (vs.map (fun v => v.2.2)) (by simpa using h)
    rcases List.mem_map.mp this with ⟨v, hv, he⟩
    exact ⟨v, hv, he⟩

/-- The default-scale list pairs batch items with resolved origins. -/
theorem scaleDefaults_length :
    ∀ (vsb : List (List Vec3)) (os : List Vec3),
      (scaleDefaults vsb os).length = min vsb.length os.length := by
  intro vsb
  induction vsb with
  | nil => intro os; simp [scaleDefaults]
  | cons v vsb ih =>
    intro os
    cases os with
    | nil => simp [scaleDefaults]
    | cons o os =>
      simp only [scaleDefaults, List.length_cons, ih]
      omega

/-- C4: the point set handed to subdivision and rasterization for batch item
i is exactly the item's vertices mapped by `(v - origin_i) / scale_i`, the
single scalar scale broadcast over the three axes; when origin is omitted it
defaults to the per-axis minimum of the item's vertices, and when scale is
omitted it defaults to the maximum over axes of (per-axis maximum minus the
resolved origin). -/
theorem normalization_feeds_exact_points
    (vts : VertTensor) (faces : List (ℕ × ℕ × ℕ)) (resolution : ℤ)
    (os : List Vec3) (ss : List ℚ) (i : ℕ)
    (vsi : List Vec3) (oi : Vec3) (si : ℚ)
    (hv : vts.data[i]? = some vsi) (ho : os[i]? = some oi) (hs : ss[i]? = some si) :
    (normBatch vts.data os ss)[i]? = some (vsi.map (fun v => vdiv (vsub v oi) si)) ∧
    (∀ t : GridTensor,
        trianglemeshes_to_voxelgrids vts faces resolution (some os) (some ss) false
          = .ok t →
        ∃ g, t.data[i]? = some g ∧
          procItem faces resolution false (vsi.map (fun v => vdiv (vsub v oi) si))
            = .ok g) ∧
    (resolveOrigin vts.data none = vts.data.map axisMin ∧
      (vsi ≠ [] → isAxisMinOf vsi (axisMin vsi))) ∧
    ((resolveScale vts.data os none)[i]? = some (max3 (vsub (axisMax vsi) oi)) ∧
      (vsi ≠ [] → isAxisMaxOf vsi (axisMax vsi))) := by
  have hnb := normBatch_getElem? i vts.data os ss vsi oi si hv ho hs
  refine ⟨hnb, ?_, ⟨rfl, fun hne => axisMin_spec vsi hne⟩,
    ⟨scaleDefaults_getElem? i vts.data os vsi oi hv ho,
      fun hne => axisMax_spec vsi hne⟩⟩
  intro t hok
  obtain ⟨_, hloop, _, _⟩ := convert_ok_elim vts faces resolution (some os) (some ss)
    false t hok
  simp only [resolveOrigin, resolveScale] at hloop
  exact convertLoop_ok_getElem? faces resolution false _ t.data hloop i _ hnb

/-- Concrete vertex list used by the C4 witness. -/
def c4Verts : List Vec3 := [((0 : ℚ), 0, 0), ((2 : ℚ), 1, 0)]

/-- Concrete supplied origin used by the C4 witness. -/
def c4Origin : Vec3 := ((0 : ℚ), 0, 1)

/-- Witness for C4 on a two-vertex item with supplied origin and scale. -/
theorem normalization_feeds_exact_points_witness :
    (normBatch [c4Verts] [c4Origin] [(2 : ℚ)])[0]?
      = some (c4Verts.map (fun v => vdiv (vsub v c4Origin) 2)) ∧
    (∀ t : GridTensor,
        trianglemeshes_to_voxelgrids ⟨[c4Verts], "float32", "cpu"⟩ [] 1
            (some [c4Origin]) (some [(2 : ℚ)]) false = .ok t →
        ∃ g, t.data[0]? = some g ∧
          procItem [] 1 false (c4Verts.map (fun v => vdiv (vsub v c4Origin) 2))
            = .ok g) ∧
    (resolveOrigin [c4Verts] none = [c4Verts].map axisMin ∧
      (c4Verts ≠ [] → isAxisMinOf c4Verts (axisMin c4Verts))) ∧
    ((resolveScale [c4Verts] [c4Origin] none)[0]?
        = some (max3 (vsub (axisMax c4Verts) c4Origin)) ∧
      (c4Verts ≠ [] → isAxisMaxOf c4Verts (axisMax c4Verts))) :=
  normalization_feeds_exact_points ⟨[c4Verts], "float32", "cpu"⟩ [] 1
    [c4Origin] [(2 : ℚ)] 0 c4Verts c4Origin 2 rfl rfl rfl

/-- C10: when origin is supplied and scale omitted, the default scale of
item i is the maximum over axes of (per-axis vertex maximum minus the
supplied origin of item i) — the formula references the supplied origin,
not the per-axis minimum of the vertices. -/
theorem default_scale_uses_supplied_origin
    (vsb : List (List Vec3)) (os : List Vec3) (i : ℕ) (vsi : List Vec3) (oi : Vec3)
    (hv : vsb[i]? = some vsi) (ho : os[i]? = some oi) :
    resolveScale vsb os none = scaleDefaults vsb os ∧
    (scaleDefaults vsb os)[i]? = some (max3 (vsub (axisMax vsi) oi)) ∧
    (vsi ≠ [] → isAxisMaxOf vsi (axisMax vsi)) :=
  ⟨rfl, scaleDefaults_getElem? i vsb os vsi oi hv ho,
    fun hne => axisMax_spec vsi hne⟩

/-- Concrete vertex list used by the C10 witness. -/
def c10Verts : List Vec3 := [((0 : ℚ), 0, 0), ((4 : ℚ), 1, 0)]

/-- Concrete supplied origin used by the C10 witness; it differs from the
per-axis minimum of the vertices. -/
def c10Origin : Vec3 := ((1 : ℚ), 1, 1)

/-- Witness for C10 with a supplied origin that differs from the per-axis
minimum of the vertices. -/
theorem default_scale_uses_supplied_origin_witness :
    resolveScale [c10Verts] [c10Origin] none = scaleDefaults [c10Verts] [c10Origin] ∧
    (scaleDefaults [c10Verts] [c10Origin])[0]?
      = some (max3 (vsub (axisMax c10Verts) c10Origin)) ∧
    (c10Verts ≠ [] → isAxisMaxOf c10Verts (axisMax c10Verts)) :=
  default_scale_uses_supplied_origin [c10Verts] [c10Origin] 0 c10Verts c10Origin rfl rfl

/-- C5: with origin and scale supplied explicitly, the i-th grid of a
successful batched call equals the single grid of the call on the one-item
batch holding only item i with the same origin, scale, faces, resolution and
sparse flag; no item's result depends on any other item. -/
theorem batch_item_independence
    (vts : VertTensor) (faces : List (ℕ × ℕ × ℕ)) (resolution : ℤ)
    (os : List Vec3) (ss : List ℚ) (return_sparse : Bool) (i : ℕ)
    (t : GridTensor) (vsi : List Vec3) (oi : Vec3) (si : ℚ)
    (hv : vts.data[i]? = some vsi) (ho : os[i]? = some oi) (hs : ss[i]? = some si)
    (hok : trianglemeshes_to_voxelgrids vts faces resolution (some os) (some ss)
      return_sparse = .ok t) :
    ∃ g, t.data[i]? = some g ∧
      trianglemeshes_to_voxelgrids ⟨[vsi], vts.dtype, vts.device⟩ faces resolution
        (some [oi]) (some [si]) return_sparse = .ok ⟨[g], vts.dtype, vts.device⟩ := by
  obtain ⟨hres, hloop, _, _⟩ := convert_ok_elim vts faces resolution (some os) (some ss)
    return_sparse t hok
  simp only [resolveOrigin, resolveScale] at hloop
  have hnb := normBatch_getElem? i vts.data os ss vsi oi si hv ho hs
  obtain ⟨g, hg, hproc⟩ := convertLoop_ok_getElem? faces resolution return_sparse _
    t.data hloop i _ hnb
  refine ⟨g, hg, ?_⟩
  unfold trianglemeshes_to_voxelgrids
  rw [if_neg (by omega : ¬ resolution < 0)]
  simp only [resolveOrigin, resolveScale]
  have h1 : normBatch [vsi] [oi] [si]
      = [vsi.map (fun v => vdiv (vsub v oi) si)] := rfl
  rw [h1]
  simp only [convertLoop, hproc]

/-- Witness for C5 on a two-item batch at index 1. -/
theorem batch_item_independence_witness :
    ∃ g, (GridTensor.mk [[[[(0 : ℚ)]]], [[[(0 : ℚ)]]]] "float64" "cuda").data[1]?
        = some g ∧
      trianglemeshes_to_voxelgrids ⟨[[((5 : ℚ), 5, 5)]], "float64", "cuda"⟩ [] 1
        (some [((5 : ℚ), 5, 5)]) (some [(1 : ℚ)]) false
        = .ok ⟨[g], "float64", "cuda"⟩ :=
  batch_item_independence
    ⟨[[((0 : ℚ), 0, 0)], [((5 : ℚ), 5, 5)]], "float64", "cuda"⟩ [] 1
    [((0 : ℚ), 0, 0), ((5 : ℚ), 5, 5)] [(1 : ℚ), (1 : ℚ)] false 1
    (GridTensor.mk [[[[(0 : ℚ)]]], [[[(0 : ℚ)]]]] "float64" "cuda")
    [((5 : ℚ), 5, 5)] ((5 : ℚ), 5, 5) 1 rfl rfl rfl
    (by with_unfolding_all rfl)

/-- C9: every successful call returns one grid per batch item, each grid a
full cube of side `resolution` (so the batched tensor has shape
(B, resolution, resolution, resolution)), and the output tensor carries the
dtype and device of the input vertices tensor. -/
theorem output_shape_dtype_device
    (vts : VertTensor) (faces : List (ℕ × ℕ × ℕ)) (resolution : ℤ)
    (origin : Option (List Vec3)) (scale : Option (List ℚ)) (return_sparse : Bool)
    (t : GridTensor)
    (ho : ∀ os, origin = some os → os.length = vts.data.length)
    (hs : ∀ ss, scale = some ss → ss.length = vts.data.length)
    (hok : trianglemeshes_to_voxelgrids vts faces resolution origin scale return_sparse
      = .ok t) :
    0 ≤ resolution ∧
    t.data.length = vts.data.length ∧
    t.dtype = vts.dtype ∧ t.device = vts.device ∧
    ∀ g ∈ t.data, g.length = resolution.toNat ∧
      ∀ plane ∈ g, plane.length = resolution.toNat ∧
        ∀ row ∈ plane, row.length = resolution.toNat := by
  obtain ⟨hres, hloop, hdt, hdev⟩ := convert_ok_elim vts faces resolution origin scale
    return_sparse t hok
  have holen : (resolveOrigin vts.data origin).length = vts.data.length := by
    cases origin with
    | none => simp [resolveOrigin]
    | some os => simpa [resolveOrigin] using ho os rfl
  have hslen : (resolveScale vts.data (resolveOrigin vts.data origin) scale).length
      = vts.data.length := by
    cases scale with
    | none =>
      simp only [resolveScale, scaleDefaults_length, holen]
      omega
    | some ss => simpa [resolveScale] using hs ss rfl
  have hnlen := normBatch_length vts.data (resolveOrigin vts.data origin)
    (resolveScale vts.data (resolveOrigin vts.data origin) scale)
  have hlen := convertLoop_ok_length faces resolution return_sparse _ t.data hloop
  refine ⟨hres, ?_, hdt, hdev, ?_⟩
  · rw [hlen, hnlen, holen, hslen]
    omega
  · intro g hg
    obtain ⟨pts, _, hproc⟩ := convertLoop_ok_mem faces resolution return_sparse _
      t.data hloop g hg
    obtain ⟨_, idxs, hgd⟩ := procItem_ok_dense faces resolution return_sparse pts g hproc
    subst hgd
    exact denseFromIndices_dims resolution idxs

/-- Witness for C9 on a one-item batch with omitted origin and scale at
resolution 2. -/
theorem output_shape_dtype_device_witness :
    (0 : ℤ) ≤ 2 ∧
    (GridTensor.mk
        [[[[(0 : ℚ), 0], [(0 : ℚ), 0]], [[(0 : ℚ), 0], [(0 : ℚ), 0]]]]
        "float16" "mps").data.length
      = (VertTensor.mk [[((0 : ℚ), 0, 0), ((1 : ℚ), 2, 3)]] "float16" "mps").data.length ∧
    (GridTensor.mk
        [[[[(0 : ℚ), 0], [(0 : ℚ), 0]], [[(0 : ℚ), 0], [(0 : ℚ), 0]]]]
        "float16" "mps").dtype
      = (VertTensor.mk [[((0 : ℚ), 0, 0), ((1 : ℚ), 2, 3)]] "float16" "mps").dtype ∧
    (GridTensor.mk
        [[[[(0 : ℚ), 0], [(0 : ℚ), 0]], [[(0 : ℚ), 0], [(0 : ℚ), 0]]]]
        "float16" "mps").device
      = (VertTensor.mk [[((0 : ℚ), 0, 0), ((1 : ℚ), 2, 3)]] "float16" "mps").device ∧
    ∀ g ∈ (GridTensor.mk
        [[[[(0 : ℚ), 0], [(0 : ℚ), 0]], [[(0 : ℚ), 0], [(0 : ℚ), 0]]]]
        "float16" "mps").data,
      g.length = (2 : ℤ).toNat ∧
      ∀ plane ∈ g, plane.length = (2 : ℤ).toNat ∧
        ∀ row ∈ plane, row.length = (2 : ℤ).toNat :=
  output_shape_dtype_device
    (VertTensor.mk [[((0 : ℚ), 0, 0), ((1 : ℚ), 2, 3)]] "float16" "mps") [] 2
    none none false
    (GridTensor.mk
      [[[[(0 : ℚ), 0], [(0 : ℚ), 0]], [[(0 : ℚ), 0], [(0 : ℚ), 0]]]]
      "float16" "mps")
    (fun os h => Option.noConfusion h) (fun ss h => Option.noConfusion h)
    (by with_unfolding_all rfl)

/-- The docstring example batch: a single mesh with vertices
(0,0,0), (1,0,0), (0,0,1). -/
def exampleVertices : VertTensor :=
  ⟨[[((0 : ℚ), 0, 0), ((1 : ℚ), 0, 0), ((0 : ℚ), 0, 1)]], "float32", "cpu"⟩

/-- The docstring example faces: the single face [0, 1, 2]. -/
def exampleFaces : List (ℕ × ℕ × ℕ) := [(0, 1, 2)]

/-- C1: on the docstring example (triangle (0,0,0), (1,0,0), (0,0,1), faces
[[0,1,2]], resolution 3, origin (0,0,0), scale 1) the conversion returns the
3x3x3 binary grid occupied exactly at layer x=0: (y,z) in
{(0,0),(0,1),(0,2)}, layer x=1: {(0,0),(0,1)}, layer x=2: {(0,0)}, and 0
everywhere else — the grid literal below, indexed grid[x][y][z]. -/
theorem concrete_staircase_grid :
    trianglemeshes_to_voxelgrids exampleVertices exampleFaces 3
      (some [((0 : ℚ), 0, 0)]) (some [(1 : ℚ)]) false
    = .ok ⟨[[[[1, 1, 1], [0, 0, 0], [0, 0, 0]],
             [[1, 1, 0], [0, 0, 0], [0, 0, 0]],
             [[1, 0, 0], [0, 0, 0], [0, 0, 0]]]], "float32", "cpu"⟩ := by
  with_unfolding_all rfl

/-- C2 (code-bug evidence): with return_sparse = true the source still
assigns the per-item sparse tensor into the dense batched tensor
`voxelgrids` allocated on line 81 and returns that dense tensor; in torch
the slice assignment `voxelgrids[i] = sparse` raises, so no sparse
representation is ever returned.  Here the docstring example in sparse mode
fails instead of returning the sparse index set. -/
theorem sparse_mode_never_returns_sparse :
    trianglemeshes_to_voxelgrids exampleVertices exampleFaces 3
      (some [((0 : ℚ), 0, 0)]) (some [(1 : ℚ)]) true
    = .error "sparse tensors do not have strides" := by
  with_unfolding_all rfl

/-- C3 counterexample: resolution 0 is an integer, so it passes the only
explicit validation (`isinstance(resolution, int)`, lines 68-70), and a call
with resolution 0 on an empty batch returns a (zero-sized) grid instead of
failing. -/
theorem resolution_zero_call_succeeds :
    trianglemeshes_to_voxelgrids ⟨[], "float32", "cpu"⟩ [] 0 (some []) (some []) false
    = .ok ⟨[], "float32", "cpu"⟩ := by
  with_unfolding_all rfl

/-- C3 amended: the explicit validation only rejects a non-integer
resolution; a negative resolution always fails, but only because the output
grid allocation `torch.zeros((B, resolution, resolution, resolution))`
rejects negative dimensions, and resolution 0 is not rejected at all. -/
theorem negative_resolution_fails
    (vts : VertTensor) (faces : List (ℕ × ℕ × ℕ)) (resolution : ℤ)
    (origin : Option (List Vec3)) (scale : Option (List ℚ)) (return_sparse : Bool)
    (h : resolution < 0) :
    trianglemeshes_to_voxelgrids vts faces resolution origin scale return_sparse
      = .error "negative dimension" := by
  unfold trianglemeshes_to_voxelgrids
  rw [if_pos h]

/-- Witness for the amended C3 at resolution -1 on the docstring example. -/
theorem negative_resolution_fails_witness :
    trianglemeshes_to_voxelgrids exampleVertices exampleFaces (-1)
      (some [((0 : ℚ), 0, 0)]) (some [(1 : ℚ)]) false
      = .error "negative dimension" :=
  negative_resolution_fails exampleVertices exampleFaces (-1)
    (some [((0 : ℚ), 0, 0)]) (some [(1 : ℚ)]) false (by norm_num)

/-- C6 counterexample: a supplied scale of -1 (≤ 0) is not validated; the
call proceeds through the division and returns a grid (all normalized
points land in the clamped cell (0,0,0)) instead of raising. -/
theorem negative_scale_call_succeeds :
    trianglemeshes_to_voxelgrids exampleVertices exampleFaces 3
      (some [((0 : ℚ), 0, 0)]) (some [(-1 : ℚ)]) false
    = .ok ⟨[[[[1, 0, 0], [0, 0, 0], [0, 0, 0]],
             [[0, 0, 0], [0, 0, 0], [0, 0, 0]],
             [[0, 0, 0], [0, 0, 0], [0, 0, 0]]]], "float32", "cpu"⟩ := by
  with_unfolding_all rfl

/-- C6 amended: the source never validates the supplied scale; any scale
entry, in particular one that is not positive, is accepted and the call on
the docstring example returns a grid rather than raising. -/
theorem nonpositive_scale_accepted (s : ℚ) (_hs : s ≤ 0) :
    ∃ t, trianglemeshes_to_voxelgrids exampleVertices exampleFaces 3
      (some [((0 : ℚ), 0, 0)]) (some [s]) false = .ok t :=
  ⟨_, by with_unfolding_all rfl⟩

/-- Witness for the amended C6 at scale -1. -/
theorem nonpositive_scale_accepted_witness :
    ∃ t, trianglemeshes_to_voxelgrids exampleVertices exampleFaces 3
      (some [((0 : ℚ), 0, 0)]) (some [(-1 : ℚ)]) false = .ok t :=
  nonpositive_scale_accepted (-1) (by norm_num)
